import Mathlib

/-!
Shallow embedding of the resumable chunked-upload subsystem of
`src/share/views.py` (Django app `share`), together with the share-slot
operations it delivers into.

Modelling conventions:
  * Timestamps are `Int` (seconds); `now` is passed explicitly where the
    Python code calls `timezone.now()`.
  * A session id (`UploadSession.id`, a UUID) is a `Nat`; a `None` /
    unparsable `upload_id` in a request is `Option.none`.
  * Bytes are `List Nat`; only length and identity of the byte string
    matter to the claims.
  * The chunk directory tree (`MEDIA_ROOT/.dshare_chunks/<sid>/<idx>.part`)
    is an association list keyed by `(sessionId, index)`; a write prepends
    and a read takes the first hit, which is exactly overwrite semantics.
  * Django `FileField` blobs are identified by a `Nat` blob id chosen
    fresh by the storage backend; the set of live blobs is a list of
    `(blobId, bytes)` pairs.
  * JSON / multipart parsing, rate limiting, CSRF and the HTTP layer are
    outside the model: each view takes already-parsed arguments.
  * `received_chunks` is a JSONField holding a list of integers, hence
    `List Int` (the Python code defensively runs `int(idx)` over it; the
    non-integer-garbage case cannot arise from the code's own writes and
    is not modelled).
-/

namespace DShare

abbrev Bytes := List Nat

/-- `sorted(set(...))` insertion step: insert `x` into an ascending
duplicate-free list, keeping it ascending and duplicate-free. -/
def sortedInsert (x : Int) : List Int → List Int
  | [] => [x]
  | y :: ys =>
    if x < y then x :: y :: ys
    else if x = y then y :: ys
    else y :: sortedInsert x ys

/-- `sorted(set(l))` of the Python code: ascending, duplicate-free. -/
def sortedDedup (l : List Int) : List Int :=
  l.foldr sortedInsert []

/-- `UploadSession` model row (`src/share/models.py`). -/
structure UploadSession where
  sid : Nat
  userId : Option Nat
  isPublic : Bool
  filename : String
  contentType : String
  totalSize : Nat
  chunkSize : Nat
  totalChunks : Nat
  receivedChunks : List Int
  updatedAt : Int
  deriving Repr, DecidableEq

/-- Registry plus on-disk chunk files (`.dshare_chunks` tree). -/
structure ServerState where
  sessions : List UploadSession
  chunks : List ((Nat × Int) × Bytes)
  deriving Repr, DecidableEq

/-- `UploadSession.objects.get(id=sid)` (first row with that id). -/
def findSession (sessions : List UploadSession) (sid : Nat) : Option UploadSession :=
  sessions.find? (fun s => s.sid == sid)

/-- `session.save(...)`: replace the row with the same id. -/
def updateSession (sessions : List UploadSession) (s : UploadSession) : List UploadSession :=
  sessions.map (fun t => if t.sid == s.sid then s else t)

/-- Read the chunk blob at `(sid, index)` (`open(chunk_path, "rb")` after an
`os.path.exists` test); `none` means the `.part` file is absent. -/
def storeGet (chunks : List ((Nat × Int) × Bytes)) (sid : Nat) (i : Int) : Option Bytes :=
  (chunks.find? (fun p => p.1 == (sid, i))).map Prod.snd

/-- `shutil.rmtree` of one session's chunk directory. -/
def deleteSessionFiles (sid : Nat) (chunks : List ((Nat × Int) × Bytes)) :
    List ((Nat × Int) × Bytes) :=
  chunks.filter (fun p => p.1.1 ≠ sid)

/-- `_cleanup_expired_upload_sessions`: drop every session whose
`updated_at` is strictly before `now - ttl`, removing its chunk directory;
no-op when the configured TTL is not positive. -/
def cleanupExpired (ttl : Int) (now : Int) (st : ServerState) : ServerState :=
  if ttl ≤ 0 then st
  else
    let cutoff := now - ttl
    let expired := st.sessions.filter (fun s => decide (s.updatedAt < cutoff))
    { sessions := st.sessions.filter (fun s => !decide (s.updatedAt < cutoff)),
      chunks := expired.foldl (fun c s => deleteSessionFiles s.sid c) st.chunks }

/-- HTTP failure statuses produced by the upload views. -/
inductive ApiError where
  | badRequest
  | notFound
  | forbidden
  | payloadTooLarge
  | conflictMissing (missing : List Nat)
  | conflictChunkAbsent
  | conflictSizeMismatch
  deriving Repr, DecidableEq

/-- Body of a successful `api_upload_start` response. -/
structure StartResponse where
  uploadId : Nat
  chunkSize : Nat
  totalChunks : Nat
  receivedChunks : List Int
  deriving Repr, DecidableEq

/-- `DSHARE` default chunk size (1 MiB). -/
def defaultChunkSize : Nat := 1024 * 1024

/-- `int(data.get("chunk_size") or 0) or 1024 * 1024` followed by the
`chunk_size <= 0` re-default: any non-positive requested chunk size falls
back to 1 MiB. -/
def effectiveChunkSize (chunkSizeReq : Int) : Nat :=
  if chunkSizeReq ≤ 0 then defaultChunkSize else chunkSizeReq.toNat

/-- `total_chunks = max(1, math.ceil(total_size / chunk_size))` of
`api_upload_start` (exact integer ceiling; the sizes admitted by the
upload cap are far below the range where CPython's float division could
round). -/
def totalChunksOf (totalSize : Int) (chunkSize : Nat) : Nat :=
  max 1 ((totalSize.toNat + chunkSize - 1) / chunkSize)

/-- The session-reuse lookup of `api_upload_start` (the registry's
`findReusable`): an existing id is reused only when the session exists and
its ownership, filename, total size and chunk size all match the request. -/
def findReusable (caller : Option Nat) (filename : String) (totalSize : Int)
    (chunkSize : Nat) (uploadId : Option Nat) (sessions : List UploadSession) :
    Option UploadSession :=
  match uploadId with
  | none => none
  | some sid =>
    match findSession sessions sid with
    | none => none
    | some s =>
      if s.isPublic ≠ caller.isNone ∨ s.userId ≠ caller then none
      else if s.filename ≠ filename ∨ (s.totalSize : Int) ≠ totalSize ∨
          s.chunkSize ≠ chunkSize then none
      else some s

/-- The resume branch of `api_upload_start` (the registry's
`reconcileOnResume`): filter `received_chunks` to the valid index range,
re-sort via `sorted(set(...))`, recompute `total_chunks`, touch
`updated_at`. -/
def reconcileOnResume (s : UploadSession) (totalChunks : Nat) (now : Int) :
    UploadSession :=
  { s with
    receivedChunks :=
      sortedDedup (s.receivedChunks.filter
        (fun v => decide (0 ≤ v ∧ v < (totalChunks : Int)))),
    totalChunks := totalChunks,
    updatedAt := now }

/-- The fresh row made by `UploadSession.objects.create` in
`api_upload_start`. -/
def freshSession (caller : Option Nat) (freshId : Nat) (filename : String)
    (contentType : String) (totalSize : Int) (chunkSize : Nat)
    (totalChunks : Nat) (now : Int) : UploadSession :=
  { sid := freshId, userId := caller, isPublic := caller.isNone,
    filename := filename, contentType := contentType,
    totalSize := totalSize.toNat, chunkSize := chunkSize,
    totalChunks := totalChunks, receivedChunks := [], updatedAt := now }

/-- `api_upload_start`.  `caller` is `none` for an anonymous request and
`some uid` for an authenticated user; `freshId` is the UUID drawn by
`UploadSession.objects.create` when a new row is made; `maxBytes` is the
configured scope-dependent upload cap; `ttl`/`now` feed the opportunistic
expiry sweep. -/
def api_upload_start (caller : Option Nat) (maxBytes : Nat) (ttl : Int) (now : Int)
    (freshId : Nat) (filename : String) (totalSize : Int) (contentType : String)
    (chunkSizeReq : Int) (uploadId : Option Nat) (st : ServerState) :
    Except ApiError (StartResponse × ServerState) :=
  if filename = "" ∨ totalSize ≤ 0 then .error .badRequest
  else if totalSize > (maxBytes : Int) then .error .payloadTooLarge
  else
    match findReusable caller filename totalSize (effectiveChunkSize chunkSizeReq)
        uploadId (cleanupExpired ttl now st).sessions with
    | none =>
      .ok ({ uploadId := freshId, chunkSize := effectiveChunkSize chunkSizeReq,
             totalChunks := totalChunksOf totalSize (effectiveChunkSize chunkSizeReq),
             receivedChunks := [] },
           { (cleanupExpired ttl now st) with
             sessions :=
               freshSession caller freshId filename contentType totalSize
                 (effectiveChunkSize chunkSizeReq)
                 (totalChunksOf totalSize (effectiveChunkSize chunkSizeReq)) now ::
                 (cleanupExpired ttl now st).sessions })
    | some s =>
      .ok ({ uploadId := s.sid, chunkSize := s.chunkSize,
             totalChunks := totalChunksOf totalSize (effectiveChunkSize chunkSizeReq),
             receivedChunks :=
               (reconcileOnResume s
                 (totalChunksOf totalSize (effectiveChunkSize chunkSizeReq))
                 now).receivedChunks },
           { (cleanupExpired ttl now st) with
             sessions :=
               updateSession (cleanupExpired ttl now st).sessions
                 (reconcileOnResume s
                   (totalChunksOf totalSize (effectiveChunkSize chunkSizeReq)) now) })

/-- `api_upload_chunk`.  `bytesOpt = none` models a request with no
`"chunk"` part in `request.FILES`. -/
def api_upload_chunk (caller : Option Nat) (uploadId : Nat) (index : Int)
    (bytesOpt : Option Bytes) (now : Int) (st : ServerState) :
    Except ApiError ((Nat × Nat) × ServerState) :=
  match findSession st.sessions uploadId with
  | none => .error .notFound
  | some session =>
    let isPublic := caller.isNone
    if session.isPublic ≠ isPublic then .error .forbidden
    else if session.userId.isSome ∧ caller.isSome ∧ session.userId ≠ caller then
      .error .forbidden
    else if session.userId.isSome ∧ caller.isNone then .error .forbidden
    else if index < 0 ∨ (session.totalChunks : Int) ≤ index then .error .badRequest
    else
      match bytesOpt with
      | none => .error .badRequest
      | some bytes =>
        if index < (session.totalChunks : Int) - 1 ∧ session.chunkSize < bytes.length then
          .error .payloadTooLarge
        else
          .ok (((sortedDedup (index :: session.receivedChunks)).length,
                session.totalChunks),
               { sessions := updateSession st.sessions
                   { session with
                     receivedChunks := sortedDedup (index :: session.receivedChunks),
                     updatedAt := now },
                 chunks := ((uploadId, index), bytes) :: st.chunks })

/-- A share slot row (`PublicShareState` / `UserShareState`): the file
field holds the blob id and stored name. -/
structure SlotState where
  file : Option (Nat × String)
  text : Option String
  slotUpdatedAt : Int
  deriving Repr, DecidableEq

/-- A slot together with the blob storage backing its file field. -/
structure ShareState where
  slot : SlotState
  blobs : List (Nat × Bytes)
  deriving Repr, DecidableEq

/-- `_delete_field_file`: remove the referenced blob from storage. -/
def deleteFieldFile (blobs : List (Nat × Bytes)) (file : Option (Nat × String)) :
    List (Nat × Bytes) :=
  match file with
  | none => blobs
  | some (b, _) => blobs.filter (fun p => p.1 ≠ b)

/-- `_maybe_expire_share`: clear the slot (deleting its file blob) when
`updated_at` is older than `now - ttl`; no-op for non-positive TTL or a
fresh slot. -/
def maybeExpireShare (ttl : Int) (now : Int) (sh : ShareState) : ShareState :=
  if ttl ≤ 0 then sh
  else if now - ttl ≤ sh.slot.slotUpdatedAt then sh
  else
    { slot := { file := none, text := none, slotUpdatedAt := now },
      blobs := deleteFieldFile sh.blobs sh.slot.file }

/-- The assembly loop of `api_upload_complete`: concatenate chunk blobs
`0..totalChunks-1` in index order; `none` when some expected `.part` file
is physically absent. -/
def assemble (chunks : List ((Nat × Int) × Bytes)) (sid : Nat) (totalChunks : Nat) :
    Option Bytes :=
  ((List.range totalChunks).mapM
    (fun i : Nat => storeGet chunks sid (i : Int))).map List.flatten

/-- `api_upload_complete`.  `freshBlob` is the blob id the storage backend
assigns to the assembled file; `slotTtl` is the scope's share TTL used by
the lazy slot expiry that runs before delivery. -/
def api_upload_complete (caller : Option Nat) (uploadIdOpt : Option Nat)
    (slotTtl : Int) (now : Int) (freshBlob : Nat)
    (st : ServerState) (sh : ShareState) :
    Except ApiError (ServerState × ShareState) :=
  match uploadIdOpt with
  | none => .error .badRequest
  | some uploadId =>
    match findSession st.sessions uploadId with
    | none => .error .notFound
    | some session =>
      let isPublic := caller.isNone
      if session.isPublic ≠ isPublic then .error .forbidden
      else if session.userId.isSome ∧ caller.isSome ∧ session.userId ≠ caller then
        .error .forbidden
      else if session.userId.isSome ∧ caller.isNone then .error .forbidden
      else
        if (sortedDedup session.receivedChunks).length ≠ session.totalChunks then
          .error (.conflictMissing
            ((List.range session.totalChunks).filter
              (fun i => decide ((i : Int) ∉ sortedDedup session.receivedChunks))))
        else
          match assemble st.chunks session.sid session.totalChunks with
          | none => .error .conflictChunkAbsent
          | some blob =>
            if blob.length ≠ session.totalSize then .error .conflictSizeMismatch
            else
              .ok ({ sessions := st.sessions.filter (fun s => s.sid ≠ session.sid),
                     chunks := deleteSessionFiles session.sid st.chunks },
                   { slot := { file := some (freshBlob, session.filename), text := none,
                               slotUpdatedAt := now },
                     blobs := (freshBlob, blob) ::
                       deleteFieldFile (maybeExpireShare slotTtl now sh).blobs
                         (maybeExpireShare slotTtl now sh).slot.file })

/-- Request body of the whole-file/text `upload_view`. -/
inductive UploadPayload where
  | file (name : String) (bytes : Bytes)
  | text (content : String)
  | nothing
  deriving Repr, DecidableEq

/-- `upload_view` (whole-file or text upload into the scope's slot).
Returns the error, if any, alongside the state: the lazy expiry sweep
persists even when the request then fails. -/
def upload_view (maxBytes : Nat) (ttl : Int) (now : Int) (freshBlob : Nat)
    (payload : UploadPayload) (sh : ShareState) : Option ApiError × ShareState :=
  let sh := maybeExpireShare ttl now sh
  match payload with
  | .file name bytes =>
    if maxBytes < bytes.length then (some .payloadTooLarge, sh)
    else
      (none,
       { slot := { file := some (freshBlob, name), text := none, slotUpdatedAt := now },
         blobs := (freshBlob, bytes) :: deleteFieldFile sh.blobs sh.slot.file })
  | .text content =>
    (none,
     { slot := { file := none, text := some content, slotUpdatedAt := now },
       blobs := deleteFieldFile sh.blobs sh.slot.file })
  | .nothing => (some .badRequest, sh)

/-- `api_share_clear`: delete the file blob if present, empty both fields. -/
def api_share_clear (now : Int) (sh : ShareState) : ShareState :=
  { slot := { file := none, text := none, slotUpdatedAt := now },
    blobs := deleteFieldFile sh.blobs sh.slot.file }

/-- Run a list of `putChunk` requests (index, bytes) in order. -/
def runChunks (caller : Option Nat) (uploadId : Nat) (now : Int)
    (ops : List (Int × Bytes)) (st : ServerState) : Except ApiError ServerState :=
  ops.foldlM
    (fun s p => (api_upload_chunk caller uploadId p.1 (some p.2) now s).map Prod.snd) st

/-- The bytes of the most recent upload for a given chunk index within an
operation sequence. -/
def lastWrittenBytes (ops : List (Int × Bytes)) (i : Int) : Option Bytes :=
  (ops.reverse.find? (fun p => p.1 == i)).map Prod.snd

/-- In-index-order concatenation of the most recently uploaded bytes for
each chunk index. -/
def assembledOf (ops : List (Int × Bytes)) (n : Nat) : Bytes :=
  ((List.range n).map
    (fun i : Nat => (lastWrittenBytes ops (i : Int)).getD [])).flatten

/-- The ascending list of all chunk indices, as integers. -/
def intRange (n : Nat) : List Int :=
  (List.range n).map (fun i : Nat => (i : Int))

/-- Success conditions for one `putChunk` request: index in range, and a
non-final chunk within the chunk-size limit. -/
def chunkOpOK (totalChunks chunkSize : Nat) (op : Int × Bytes) : Prop :=
  0 ≤ op.1 ∧ op.1 < (totalChunks : Int) ∧
  (op.1 < (totalChunks : Int) - 1 → op.2.length ≤ chunkSize)

instance (totalChunks chunkSize : Nat) (op : Int × Bytes) :
    Decidable (chunkOpOK totalChunks chunkSize op) := by
  unfold chunkOpOK
  exact inferInstance

/-- Registry invariant for reachable sessions: `received_chunks` is
strictly ascending (hence duplicate-free) and every entry is a chunk
index in `[0, totalChunks)`. -/
def SessionInv (s : UploadSession) : Prop :=
  s.receivedChunks.Pairwise (· < ·) ∧
  ∀ v ∈ s.receivedChunks, 0 ≤ v ∧ v < (s.totalChunks : Int)

/-- Slot invariant: at most one of file/text is set, and the file field
references a live blob. -/
def SlotInv (sh : ShareState) : Prop :=
  (sh.slot.file = none ∨ sh.slot.text = none) ∧
  ∀ b n, sh.slot.file = some (b, n) → b ∈ sh.blobs.map Prod.fst

/-! ### Toolkit: `sorted(set(...))` -/

theorem mem_sortedInsert (x z : Int) (l : List Int) :
    z ∈ sortedInsert x l ↔ z = x ∨ z ∈ l := by
  induction l with
  | nil => simp [sortedInsert]
  | cons y ys ih =>
    rw [sortedInsert]
    split
    · simp only [List.mem_cons]
    · split
      · next h1 h2 =>
        subst h2
        simp only [List.mem_cons]
        tauto
      · simp only [List.mem_cons, ih]
        tauto

theorem sortedInsert_pairwise {x : Int} {l : List Int}
    (h : l.Pairwise (· < ·)) : (sortedInsert x l).Pairwise (· < ·) := by
  induction l with
  | nil => simp [sortedInsert]
  | cons y ys ih =>
    rcases List.pairwise_cons.mp h with ⟨hy, hys⟩
    by_cases h1 : x < y
    · simp only [sortedInsert, if_pos h1]
      refine List.pairwise_cons.mpr ⟨?_, h⟩
      intro z hz
      rcases List.mem_cons.mp hz with rfl | hz
      · exact h1
      · exact lt_trans h1 (hy z hz)
    · by_cases h2 : x = y
      · subst h2
        simp only [sortedInsert, if_neg h1, if_pos rfl]
        exact h
      · have hyx : y < x := by omega
        simp only [sortedInsert, if_neg h1, if_neg h2]
        refine List.pairwise_cons.mpr ⟨?_, ih hys⟩
        intro z hz
        rcases (mem_sortedInsert x z ys).mp hz with rfl | hz
        · exact hyx
        · exact hy z hz

theorem sortedDedup_pairwise (l : List Int) : (sortedDedup l).Pairwise (· < ·) := by
  induction l with
  | nil => simp [sortedDedup]
  | cons x xs ih => exact sortedInsert_pairwise ih

theorem mem_sortedDedup (z : Int) (l : List Int) : z ∈ sortedDedup l ↔ z ∈ l := by
  induction l with
  | nil => simp [sortedDedup]
  | cons x xs ih =>
    show z ∈ sortedInsert x (sortedDedup xs) ↔ _
    rw [mem_sortedInsert, ih]
    simp

theorem sortedInsert_of_mem {x : Int} {l : List Int}
    (hp : l.Pairwise (· < ·)) (hm : x ∈ l) : sortedInsert x l = l := by
  induction l with
  | nil => cases hm
  | cons y ys ih =>
    rcases List.pairwise_cons.mp hp with ⟨hy, hys⟩
    rcases List.mem_cons.mp hm with rfl | hm
    · simp [sortedInsert]
    · have hyx : y < x := hy x hm
      have h1 : ¬ x < y := by omega
      have h2 : ¬ x = y := by omega
      simp [sortedInsert, h1, h2, ih hys hm]

theorem sortedDedup_of_pairwise {l : List Int} (h : l.Pairwise (· < ·)) :
    sortedDedup l = l := by
  induction l with
  | nil => rfl
  | cons x xs ih =>
    rcases List.pairwise_cons.mp h with ⟨hx, hxs⟩
    show sortedInsert x (sortedDedup xs) = x :: xs
    rw [ih hxs]
    cases xs with
    | nil => rfl
    | cons y ys => simp [sortedInsert, hx y (by simp)]

theorem pairwise_lt_nodup {l : List Int} (h : l.Pairwise (· < ·)) : l.Nodup :=
  h.imp (fun h => ne_of_lt h)

/-- Two strictly ascending lists with the same members are equal. -/
theorem pairwise_lt_eq_of_mem_iff : ∀ {l₁ l₂ : List Int},
    l₁.Pairwise (· < ·) → l₂.Pairwise (· < ·) →
    (∀ x, x ∈ l₁ ↔ x ∈ l₂) → l₁ = l₂ := by
  intro l₁
  induction l₁ with
  | nil =>
    intro l₂ _ _ hm
    cases l₂ with
    | nil => rfl
    | cons b t₂ => exact absurd ((hm b).mpr (by simp)) (by simp)
  | cons a t₁ ih =>
    intro l₂ h₁ h₂ hm
    cases l₂ with
    | nil => exact absurd ((hm a).mp (by simp)) (by simp)
    | cons b t₂ =>
      rcases List.pairwise_cons.mp h₁ with ⟨ha, ht₁⟩
      rcases List.pairwise_cons.mp h₂ with ⟨hb, ht₂⟩
      have hab : a = b := by
        rcases List.mem_cons.mp ((hm a).mp (by simp)) with h | h
        · exact h
        · rcases List.mem_cons.mp ((hm b).mpr (by simp)) with h' | h'
          · exact h'.symm
          · have := hb a h; have := ha b h'; omega
      subst hab
      have htm : ∀ x, x ∈ t₁ ↔ x ∈ t₂ := by
        intro x
        constructor
        · intro hx
          rcases List.mem_cons.mp ((hm x).mp (List.mem_cons_of_mem _ hx)) with rfl | h
          · exact absurd (ha x hx) (lt_irrefl x)
          · exact h
        · intro hx
          rcases List.mem_cons.mp ((hm x).mpr (List.mem_cons_of_mem _ hx)) with rfl | h
          · exact absurd (hb x hx) (lt_irrefl x)
          · exact h
      rw [ih ht₁ ht₂ htm]

theorem intRange_pairwise (n : Nat) : (intRange n).Pairwise (· < ·) := by
  unfold intRange
  rw [List.pairwise_map]
  exact (List.pairwise_lt_range n).imp (fun h => by exact_mod_cast h)

theorem mem_intRange (n : Nat) (x : Int) :
    x ∈ intRange n ↔ 0 ≤ x ∧ x < (n : Int) := by
  unfold intRange
  rw [List.mem_map]
  constructor
  · rintro ⟨i, hi, rfl⟩
    rw [List.mem_range] at hi
    omega
  · intro h
    exact ⟨x.toNat, by rw [List.mem_range]; omega, by omega⟩

theorem intRange_length (n : Nat) : (intRange n).length = n := by
  unfold intRange
  rw [List.length_map, List.length_range]

/-- A strictly ascending list of integers in `[0, n)` has length `n`
exactly when it contains every index below `n`. -/
theorem length_eq_iff_all_mem {l : List Int} {n : Nat}
    (hp : l.Pairwise (· < ·)) (hb : ∀ v ∈ l, 0 ≤ v ∧ v < (n : Int)) :
    l.length = n ↔ ∀ i : Nat, i < n → (i : Int) ∈ l := by
  constructor
  · intro hlen i hi
    have hnodup : l.Nodup := pairwise_lt_nodup hp
    have hnodupR : (intRange n).Nodup := pairwise_lt_nodup (intRange_pairwise n)
    have hsub : l.toFinset ⊆ (intRange n).toFinset := by
      intro x hx
      rw [List.mem_toFinset] at hx ⊢
      exact (mem_intRange n x).mpr (hb x hx)
    have hcard₁ : l.toFinset.card = n := by
      rw [List.toFinset_card_of_nodup hnodup, hlen]
    have hcard₂ : (intRange n).toFinset.card = n := by
      rw [List.toFinset_card_of_nodup hnodupR, intRange_length]
    have heq : l.toFinset = (intRange n).toFinset :=
      Finset.eq_of_subset_of_card_le hsub (by omega)
    have : (i : Int) ∈ (intRange n).toFinset := by
      rw [List.mem_toFinset, mem_intRange]; omega
    rw [← heq, List.mem_toFinset] at this
    exact this
  · intro hall
    have : l = intRange n := by
      refine pairwise_lt_eq_of_mem_iff hp (intRange_pairwise n) ?_
      intro x
      rw [mem_intRange]
      constructor
      · exact hb x
      · intro ⟨h0, hn⟩
        have := hall x.toNat (by omega)
        simpa [Int.toNat_of_nonneg h0] using this
    rw [this, intRange_length]

/-! ### Toolkit: registry and chunk-store operations -/

theorem findSession_some_sid {sessions : List UploadSession} {sid : Nat}
    {s : UploadSession} (h : findSession sessions sid = some s) : s.sid = sid := by
  have := List.find?_some h
  simpa using this

theorem findSession_mem {sessions : List UploadSession} {sid : Nat}
    {s : UploadSession} (h : findSession sessions sid = some s) : s ∈ sessions :=
  List.mem_of_find?_eq_some h

theorem findSession_update_self {sessions : List UploadSession} {sid : Nat}
    {s s' : UploadSession} (h : findSession sessions sid = some s)
    (hsid : s'.sid = sid) : findSession (updateSession sessions s') sid = some s' := by
  induction sessions with
  | nil => simp [findSession] at h
  | cons t ts ih =>
    by_cases ht : t.sid = sid
    · have h1 : updateSession (t :: ts) s' = s' :: updateSession ts s' := by
        unfold updateSession
        rw [List.map_cons, if_pos (by simp [hsid, ht])]
      rw [h1]
      unfold findSession
      rw [List.find?_cons_of_pos _ (by simp [hsid])]
    · have h1 : updateSession (t :: ts) s' = t :: updateSession ts s' := by
        unfold updateSession
        rw [List.map_cons, if_neg (by simp [hsid, ht])]
      rw [h1]
      unfold findSession
      rw [List.find?_cons_of_neg _ (by simp [ht])]
      have h' : findSession ts sid = some s := by
        unfold findSession at h
        rwa [List.find?_cons_of_neg _ (by simp [ht])] at h
      exact ih h'

theorem storeGet_cons (sid sid' : Nat) (i j : Int) (b : Bytes)
    (chunks : List ((Nat × Int) × Bytes)) :
    storeGet (((sid, i), b) :: chunks) sid' j =
      if sid' = sid ∧ j = i then some b else storeGet chunks sid' j := by
  by_cases h : sid' = sid ∧ j = i
  · obtain ⟨rfl, rfl⟩ := h
    simp [storeGet]
  · have hbeq : (((sid, i) : Nat × Int) == (sid', j)) = false := by
      rw [beq_eq_false_iff_ne]
      intro hc
      injection hc with h1 h2
      exact h ⟨h1.symm, h2.symm⟩
    rw [if_neg h]
    unfold storeGet
    rw [List.find?_cons_of_neg _ (by simp [hbeq])]

theorem storeGet_deleteSessionFiles_self (sid : Nat)
    (chunks : List ((Nat × Int) × Bytes)) (i : Int) :
    storeGet (deleteSessionFiles sid chunks) sid i = none := by
  induction chunks with
  | nil => rfl
  | cons p rest ih =>
    unfold deleteSessionFiles at *
    rw [List.filter_cons]
    by_cases h : p.1.1 = sid
    · rw [if_neg (by simp [h])]
      exact ih
    · rw [if_pos (by simp [h])]
      unfold storeGet at *
      rw [List.find?_cons_of_neg]
      · exact ih
      · simp only [beq_iff_eq]
        intro hc
        exact h (congrArg Prod.fst hc)

theorem storeGet_deleteSessionFiles_other {sid sid' : Nat} (h : sid' ≠ sid)
    (chunks : List ((Nat × Int) × Bytes)) (i : Int) :
    storeGet (deleteSessionFiles sid chunks) sid' i = storeGet chunks sid' i := by
  induction chunks with
  | nil => rfl
  | cons p rest ih =>
    unfold deleteSessionFiles at *
    rw [List.filter_cons]
    by_cases hp : p.1.1 = sid
    · rw [if_neg (by simp [hp])]
      unfold storeGet at *
      rw [ih]
      rw [List.find?_cons_of_neg]
      simp only [beq_iff_eq]
      intro hc
      exact h ((congrArg Prod.fst hc).symm.trans hp)
    · rw [if_pos (by simp [hp])]
      unfold storeGet at *
      rw [List.find?_cons, List.find?_cons]
      cases hbeq : (p.1 == (sid', i)) with
      | true => rfl
      | false => exact ih

theorem storeGet_deleteSessionFiles_none {sid sid' : Nat}
    {chunks : List ((Nat × Int) × Bytes)} {i : Int}
    (h : storeGet chunks sid' i = none) :
    storeGet (deleteSessionFiles sid chunks) sid' i = none := by
  by_cases hs : sid' = sid
  · subst hs; exact storeGet_deleteSessionFiles_self sid' chunks i
  · rw [storeGet_deleteSessionFiles_other hs]; exact h

theorem storeGet_foldl_delete_none {sid : Nat} {i : Int} :
    ∀ (es : List UploadSession) (chunks : List ((Nat × Int) × Bytes)),
      storeGet chunks sid i = none →
      storeGet (es.foldl (fun c s => deleteSessionFiles s.sid c) chunks) sid i = none := by
  intro es
  induction es with
  | nil => intro chunks h; exact h
  | cons e rest ih =>
    intro chunks h
    exact ih _ (storeGet_deleteSessionFiles_none h)

theorem storeGet_foldl_delete_of_mem {sid : Nat} {i : Int} :
    ∀ (es : List UploadSession) (chunks : List ((Nat × Int) × Bytes)),
      (∃ e ∈ es, e.sid = sid) →
      storeGet (es.foldl (fun c s => deleteSessionFiles s.sid c) chunks) sid i = none := by
  intro es
  induction es with
  | nil => rintro chunks ⟨e, he, _⟩; cases he
  | cons e rest ih =>
    rintro chunks ⟨a, ha, hsa⟩
    rcases List.mem_cons.mp ha with rfl | ha
    · exact storeGet_foldl_delete_none rest _
        (hsa ▸ storeGet_deleteSessionFiles_self a.sid chunks i)
    · exact ih _ ⟨a, ha, hsa⟩

theorem find?_filter_of_find? {α : Type} (p f : α → Bool) :
    ∀ {l : List α} {a : α}, l.find? p = some a → f a = true →
      (l.filter f).find? p = some a := by
  intro l
  induction l with
  | nil => intro a h; simp [List.find?] at h
  | cons t ts ih =>
    intro a h hf
    cases hpt : p t with
    | true =>
      rw [List.find?_cons_of_pos _ hpt] at h
      obtain rfl := Option.some.inj h
      rw [List.filter_cons, if_pos hf, List.find?_cons_of_pos _ hpt]
    | false =>
      rw [List.find?_cons_of_neg _ (by simp [hpt])] at h
      rw [List.filter_cons]
      by_cases hft : f t = true
      · rw [if_pos hft, List.find?_cons_of_neg _ (by simp [hpt])]
        exact ih h hf
      · rw [if_neg hft]
        exact ih h hf

theorem lastWrittenBytes_cons (op : Int × Bytes) (ops : List (Int × Bytes)) (i : Int) :
    lastWrittenBytes (op :: ops) i =
      match lastWrittenBytes ops i with
      | some b => some b
      | none => if op.1 = i then some op.2 else none := by
  unfold lastWrittenBytes
  rw [List.reverse_cons, List.find?_append]
  cases hf : (ops.reverse.find? (fun p => p.1 == i)) with
  | some b => rfl
  | none =>
    show Option.map Prod.snd (List.find? (fun p => p.1 == i) [op]) = _
    by_cases h : op.1 = i
    · rw [List.find?_cons_of_pos _ (by simp [h])]
      simp [h]
    · rw [List.find?_cons_of_neg _ (by simp [h])]
      simp [h]

theorem mapM_eq_some_of_forall {α β : Type} (f : α → Option β) (g : α → β) :
    ∀ l : List α, (∀ a ∈ l, f a = some (g a)) → l.mapM f = some (l.map g) := by
  intro l
  induction l with
  | nil => intro _; rfl
  | cons a t ih =>
    intro h
    rw [List.mapM_cons, h a (by simp), ih (fun b hb => h b (by simp [hb]))]
    rfl

/-! ### Toolkit: arithmetic and reuse-lookup facts -/

theorem ceil_bounds {a b : Nat} (ha : 0 < a) (hb : 0 < b) :
    max 1 ((a + b - 1) / b) = (a + b - 1) / b ∧
    a ≤ b * ((a + b - 1) / b) ∧ b * ((a + b - 1) / b) < a + b := by
  have hd := Nat.div_add_mod (a + b - 1) b
  have hr : (a + b - 1) % b < b := Nat.mod_lt _ hb
  rcases Nat.eq_zero_or_pos ((a + b - 1) / b) with hq0 | hq1
  · rw [hq0, Nat.mul_zero] at hd
    omega
  · refine ⟨Nat.max_eq_right hq1, ?_, ?_⟩ <;>
    · generalize hm : b * ((a + b - 1) / b) = m at hd ⊢
      omega

theorem effectiveChunkSize_pos (chunkSizeReq : Int) :
    0 < effectiveChunkSize chunkSizeReq := by
  unfold effectiveChunkSize defaultChunkSize
  split
  · norm_num
  · next h => omega

theorem totalChunksOf_spec {totalSize : Int} (chunkSize : Nat)
    (hpos : 0 < totalSize) (hcs : 0 < chunkSize) :
    totalChunksOf totalSize chunkSize = (totalSize.toNat + chunkSize - 1) / chunkSize ∧
    1 ≤ totalChunksOf totalSize chunkSize ∧
    totalSize.toNat ≤ chunkSize * totalChunksOf totalSize chunkSize ∧
    chunkSize * totalChunksOf totalSize chunkSize < totalSize.toNat + chunkSize := by
  have ha : 0 < totalSize.toNat := by omega
  obtain ⟨hm, h1, h2⟩ := ceil_bounds ha hcs
  unfold totalChunksOf
  refine ⟨hm, Nat.le_max_left 1 _, ?_, ?_⟩ <;> rw [hm]
  · exact h1
  · exact h2

theorem findReusable_some {caller : Option Nat} {filename : String} {totalSize : Int}
    {chunkSize : Nat} {uploadId : Option Nat} {sessions : List UploadSession}
    {s : UploadSession}
    (h : findReusable caller filename totalSize chunkSize uploadId sessions = some s) :
    uploadId = some s.sid ∧ findSession sessions s.sid = some s ∧
    s.isPublic = caller.isNone ∧ s.userId = caller ∧
    s.filename = filename ∧ (s.totalSize : Int) = totalSize ∧
    s.chunkSize = chunkSize := by
  unfold findReusable at h
  cases huid : uploadId with
  | none => rw [huid] at h; cases h
  | some sid =>
    rw [huid] at h
    dsimp only at h
    cases hf : findSession sessions sid with
    | none => rw [hf] at h; cases h
    | some s₀ =>
      rw [hf] at h
      dsimp only at h
      by_cases h1 : s₀.isPublic ≠ caller.isNone ∨ s₀.userId ≠ caller
      · rw [if_pos h1] at h; cases h
      · rw [if_neg h1] at h
        by_cases h2 : s₀.filename ≠ filename ∨ (s₀.totalSize : Int) ≠ totalSize ∨
            s₀.chunkSize ≠ chunkSize
        · rw [if_pos h2] at h; cases h
        · rw [if_neg h2] at h
          obtain rfl := Option.some.inj h
          push_neg at h1 h2
          have hsid := findSession_some_sid hf
          exact ⟨by rw [hsid], by rw [hsid]; exact hf, h1.1, h1.2,
            h2.1, h2.2.1, h2.2.2⟩

theorem findReusable_of_match {caller : Option Nat} {filename : String}
    {totalSize : Int} {chunkSize : Nat} {sessions : List UploadSession}
    {s : UploadSession} (hf : findSession sessions s.sid = some s)
    (h1 : s.isPublic = caller.isNone) (h2 : s.userId = caller)
    (h3 : s.filename = filename) (h4 : (s.totalSize : Int) = totalSize)
    (h5 : s.chunkSize = chunkSize) :
    findReusable caller filename totalSize chunkSize (some s.sid) sessions = some s := by
  unfold findReusable
  dsimp only
  rw [hf]
  dsimp only
  rw [if_neg (by push_neg; exact ⟨h1, h2⟩)]
  rw [if_neg (by push_neg; exact ⟨h3, h4, h5⟩)]

theorem findReusable_none_of_not_found {caller : Option Nat} {filename : String}
    {totalSize : Int} {chunkSize : Nat} {sid : Nat} {sessions : List UploadSession}
    (hf : findSession sessions sid = none) :
    findReusable caller filename totalSize chunkSize (some sid) sessions = none := by
  unfold findReusable
  dsimp only
  rw [hf]

theorem findReusable_none_of_mismatch {caller : Option Nat}
    {filename : String} {totalSize : Int} {chunkSize : Nat} {sid : Nat}
    {sessions : List UploadSession} {s : UploadSession}
    (hf : findSession sessions sid = some s)
    (hmis : s.filename ≠ filename ∨ (s.totalSize : Int) ≠ totalSize ∨
      s.chunkSize ≠ chunkSize) :
    findReusable caller filename totalSize chunkSize (some sid) sessions = none := by
  unfold findReusable
  dsimp only
  rw [hf]
  dsimp only
  by_cases h1 : s.isPublic ≠ caller.isNone ∨ s.userId ≠ caller
  · rw [if_pos h1]
  · rw [if_neg h1, if_pos hmis]

/-! ### Claims -/

/-- C3: for every valid start request (non-empty filename, positive total
size within the cap), the `totalChunks` recorded in the session row and
returned to the client equals `ceil(totalSize / chunkSize)` for the
effective chunk size and is at least 1 (witness instantiates
`totalSize = 26`, `chunkSize = 10`, giving 3). -/
theorem upload_start_totalChunks_ceil (caller : Option Nat) (maxBytes : Nat)
    (ttl now : Int) (freshId : Nat) (filename : String) (totalSize : Int)
    (contentType : String) (chunkSizeReq : Int) (uploadId : Option Nat)
    (st : ServerState)
    (hname : filename ≠ "") (hpos : 0 < totalSize)
    (hmax : totalSize ≤ (maxBytes : Int)) :
    ∃ resp st',
      api_upload_start caller maxBytes ttl now freshId filename totalSize
        contentType chunkSizeReq uploadId st = .ok (resp, st') ∧
      (∃ srow, findSession st'.sessions resp.uploadId = some srow ∧
        srow.totalChunks = resp.totalChunks ∧ srow.chunkSize = resp.chunkSize) ∧
      resp.totalChunks = (totalSize.toNat + resp.chunkSize - 1) / resp.chunkSize ∧
      1 ≤ resp.totalChunks ∧
      totalSize.toNat ≤ resp.chunkSize * resp.totalChunks ∧
      resp.chunkSize * resp.totalChunks < totalSize.toNat + resp.chunkSize := by
  have hcs := effectiveChunkSize_pos chunkSizeReq
  obtain ⟨hceil, h1, h2, h3⟩ := totalChunksOf_spec (effectiveChunkSize chunkSizeReq)
    hpos hcs
  unfold api_upload_start
  rw [if_neg (by push_neg; exact ⟨hname, by omega⟩)]
  rw [if_neg (not_lt.mpr hmax)]
  split
  · next heq =>
    refine ⟨_, _, rfl,
      ⟨freshSession caller freshId filename contentType totalSize
        (effectiveChunkSize chunkSizeReq)
        (totalChunksOf totalSize (effectiveChunkSize chunkSizeReq)) now,
       ?_, rfl, rfl⟩, hceil, h1, h2, h3⟩
    unfold findSession
    exact List.find?_cons_of_pos _ (by simp [freshSession])
  · next s heq =>
    obtain ⟨huid, hf, hpub, huser, hfn, hts, hcsz⟩ := findReusable_some heq
    refine ⟨_, _, rfl,
      ⟨reconcileOnResume s (totalChunksOf totalSize (effectiveChunkSize chunkSizeReq))
        now, ?_, rfl, ?_⟩, ?_, ?_, ?_, ?_⟩
    · exact findSession_update_self hf rfl
    · simp [reconcileOnResume]
    · simpa [hcsz] using hceil
    · exact h1
    · simpa [hcsz] using h2
    · simpa [hcsz] using h3

/-- C3 witness: `totalSize = 26`, `chunkSize = 10` on an empty registry
gives `totalChunks = 3`. -/
theorem upload_start_totalChunks_ceil_witness :
    ("f.bin" ≠ "" ∧ (0 : Int) < 26 ∧ (26 : Int) ≤ ((10485760 : Nat) : Int)) ∧
    ∃ resp st',
      api_upload_start none 10485760 86400 1000 7 "f.bin" 26 "" 10 none
        { sessions := [], chunks := [] } = .ok (resp, st') ∧
      resp.totalChunks = 3 := by
  refine ⟨⟨by decide, by decide, by decide⟩, ?_⟩
  obtain ⟨resp, st', hok, -, hceil, -⟩ :=
    upload_start_totalChunks_ceil none 10485760 86400 1000 7 "f.bin" 26 "" 10 none
      { sessions := [], chunks := [] } (by decide) (by decide) (by decide)
  have heq : api_upload_start none 10485760 86400 1000 7 "f.bin" 26 "" 10 none
      { sessions := [], chunks := [] } =
      .ok ({ uploadId := 7, chunkSize := 10, totalChunks := 3,
             receivedChunks := [] },
           { sessions := [freshSession none 7 "f.bin" "" 26 10 3 1000],
             chunks := [] }) := rfl
  rw [heq] at hok
  obtain ⟨h1, h2⟩ := Prod.ext_iff.mp (Except.ok.inj hok)
  dsimp only at h1 h2
  exact ⟨resp, st', heq.trans hok, by rw [← h1]⟩

theorem sortedDedup_cons_mem {x : Int} {l : List Int}
    (hp : l.Pairwise (· < ·)) (hm : x ∈ l) : sortedDedup (x :: l) = l := by
  show sortedInsert x (sortedDedup l) = l
  rw [sortedDedup_of_pairwise hp]
  exact sortedInsert_of_mem hp hm

/-- C7: a non-final chunk strictly larger than `chunkSize` fails
`PayloadTooLarge`; a non-final chunk of at most `chunkSize` bytes passes;
the last chunk (index `totalChunks - 1`) is exempt from the limit. -/
theorem upload_chunk_size_limit (caller : Option Nat) (uploadId : Nat)
    (index : Int) (bytes : Bytes) (now : Int) (st : ServerState)
    (session : UploadSession)
    (hf : findSession st.sessions uploadId = some session)
    (hpub : session.isPublic = caller.isNone) (huser : session.userId = caller)
    (hlo : 0 ≤ index) (hhi : index < (session.totalChunks : Int)) :
    (index < (session.totalChunks : Int) - 1 →
      (session.chunkSize < bytes.length →
        api_upload_chunk caller uploadId index (some bytes) now st =
          .error .payloadTooLarge) ∧
      (bytes.length ≤ session.chunkSize →
        ∃ counts st', api_upload_chunk caller uploadId index (some bytes) now st =
          .ok (counts, st'))) ∧
    (index = (session.totalChunks : Int) - 1 →
      ∃ counts st', api_upload_chunk caller uploadId index (some bytes) now st =
        .ok (counts, st')) := by
  unfold api_upload_chunk
  rw [hf]
  dsimp only
  rw [if_neg (by simp [hpub])]
  rw [if_neg (by simp [huser])]
  rw [if_neg (by rcases caller with _ | u <;> simp [huser])]
  rw [if_neg (by omega)]
  refine ⟨fun hidx => ⟨fun hbig => ?_, fun hsmall => ?_⟩, fun hlast => ?_⟩
  · rw [if_pos ⟨hidx, hbig⟩]
  · rw [if_neg (by rintro ⟨-, hlen⟩; omega)]
    exact ⟨_, _, rfl⟩
  · rw [if_neg (by rintro ⟨hidx, -⟩; omega)]
    exact ⟨_, _, rfl⟩

/-- C7 witness: a 3-chunk session with `chunkSize = 10`; an 11-byte chunk
at index 0 is rejected, a 10-byte chunk at index 0 is accepted, and an
11-byte chunk at the final index 2 is accepted. -/
theorem upload_chunk_size_limit_witness :
    (0 : Int) ≤ 0 ∧ (0 : Int) < ((3 : Nat) : Int) ∧
    ((0 : Int) < ((3 : Nat) : Int) - 1 →
      ((10 : Nat) < (List.range 11).length →
        api_upload_chunk none 7 0 (some (List.range 11)) 1001
          { sessions := [freshSession none 7 "f.bin" "" 26 10 3 1000],
            chunks := [] } = .error .payloadTooLarge)) := by
  have h := upload_chunk_size_limit none 7 0 (List.range 11) 1001
    { sessions := [freshSession none 7 "f.bin" "" 26 10 3 1000], chunks := [] }
    (freshSession none 7 "f.bin" "" 26 10 3 1000)
    (by rfl) (by rfl) (by rfl) (by decide) (by decide)
  exact ⟨by decide, by decide, fun hidx => fun hbig => (h.1 hidx).1 hbig⟩

/-- C5: re-uploading an already-received chunk index succeeds, reports the
same received-count, leaves the `received_chunks` list unchanged, and the
chunk store afterwards returns the newly written bytes for that index
(these are what `complete`'s assembly reads). -/
theorem upload_chunk_idempotent (caller : Option Nat) (uploadId : Nat)
    (index : Int) (bytes : Bytes) (now : Int) (st : ServerState)
    (session : UploadSession)
    (hf : findSession st.sessions uploadId = some session)
    (hpub : session.isPublic = caller.isNone) (huser : session.userId = caller)
    (hinv : session.receivedChunks.Pairwise (· < ·))
    (hmem : index ∈ session.receivedChunks)
    (hlo : 0 ≤ index) (hhi : index < (session.totalChunks : Int))
    (hsize : index < (session.totalChunks : Int) - 1 →
      bytes.length ≤ session.chunkSize) :
    ∃ st',
      api_upload_chunk caller uploadId index (some bytes) now st =
        .ok ((session.receivedChunks.length, session.totalChunks), st') ∧
      (∃ s', findSession st'.sessions uploadId = some s' ∧
        s'.receivedChunks = session.receivedChunks) ∧
      storeGet st'.chunks uploadId index = some bytes := by
  have hdedup : sortedDedup (index :: session.receivedChunks) =
      session.receivedChunks := sortedDedup_cons_mem hinv hmem
  unfold api_upload_chunk
  rw [hf]
  dsimp only
  rw [if_neg (by simp [hpub])]
  rw [if_neg (by simp [huser])]
  rw [if_neg (by rcases caller with _ | u <;> simp [huser])]
  rw [if_neg (by omega)]
  rw [if_neg (by rintro ⟨hidx, hlen⟩; have := hsize hidx; omega)]
  rw [hdedup]
  refine ⟨_, rfl, ⟨{ session with updatedAt := now }, ?_, rfl⟩, ?_⟩
  · apply findSession_update_self hf
    show session.sid = uploadId
    exact findSession_some_sid hf
  · rw [storeGet_cons]
    simp

/-- C5 witness: re-upload chunk 2 with fresh bytes on a session that has
already received `[2]`: the count stays 1, the list stays `[2]`, and the
store returns the new bytes. -/
theorem upload_chunk_idempotent_witness :
    ∃ st',
      api_upload_chunk none 7 2 (some [9, 9, 9, 9, 9, 9]) 1002
        { sessions := [{ freshSession none 7 "f.bin" "" 26 10 3 1000 with
                         receivedChunks := [2] }],
          chunks := [((7, 2), [20, 21, 22, 23, 24, 25])] } =
        .ok ((([2] : List Int).length, 3), st') ∧
      (∃ s', findSession st'.sessions 7 = some s' ∧
        s'.receivedChunks = [2]) ∧
      storeGet st'.chunks 7 2 = some [9, 9, 9, 9, 9, 9] := by
  exact upload_chunk_idempotent none 7 2 [9, 9, 9, 9, 9, 9] 1002
    { sessions := [{ freshSession none 7 "f.bin" "" 26 10 3 1000 with
                     receivedChunks := [2] }],
      chunks := [((7, 2), [20, 21, 22, 23, 24, 25])] }
    { freshSession none 7 "f.bin" "" 26 10 3 1000 with receivedChunks := [2] }
    (by rfl) (by rfl) (by rfl) (by decide) (by decide) (by decide) (by decide)
    (by intro h; exact absurd h (by decide))

/-- C2: calling `complete` on a session missing at least one chunk index
fails `Conflict` carrying exactly the missing indices (all `j <
totalChunks` with `j` unreceived) in ascending order; the call returns
before any state is modified, so registry row and chunk files are
untouched. -/
theorem upload_complete_conflict_missing (caller : Option Nat) (uploadId : Nat)
    (slotTtl now : Int) (freshBlob : Nat) (st : ServerState) (sh : ShareState)
    (session : UploadSession)
    (hf : findSession st.sessions uploadId = some session)
    (hpub : session.isPublic = caller.isNone) (huser : session.userId = caller)
    (hinv : SessionInv session)
    (i : Nat) (hi : i < session.totalChunks)
    (hmiss : (i : Int) ∉ session.receivedChunks) :
    api_upload_complete caller (some uploadId) slotTtl now freshBlob st sh =
      .error (.conflictMissing
        ((List.range session.totalChunks).filter
          (fun j : Nat => decide ((j : Int) ∉ session.receivedChunks)))) ∧
    ((List.range session.totalChunks).filter
        (fun j : Nat => decide ((j : Int) ∉ session.receivedChunks))).Pairwise
      (· < ·) ∧
    (∀ j : Nat, j ∈ (List.range session.totalChunks).filter
        (fun j : Nat => decide ((j : Int) ∉ session.receivedChunks)) ↔
      j < session.totalChunks ∧ (j : Int) ∉ session.receivedChunks) := by
  have hb : ∀ v ∈ sortedDedup session.receivedChunks,
      0 ≤ v ∧ v < (session.totalChunks : Int) :=
    fun v hv => hinv.2 v ((mem_sortedDedup v _).mp hv)
  have hne : (sortedDedup session.receivedChunks).length ≠ session.totalChunks := by
    intro hlen
    exact hmiss ((mem_sortedDedup _ _).mp
      (((length_eq_iff_all_mem (sortedDedup_pairwise _) hb).mp hlen) i hi))
  have hfe : (List.range session.totalChunks).filter
      (fun j : Nat => decide ((j : Int) ∉ sortedDedup session.receivedChunks)) =
      (List.range session.totalChunks).filter
      (fun j : Nat => decide ((j : Int) ∉ session.receivedChunks)) :=
    List.filter_congr
      (fun a _ => decide_eq_decide.mpr (not_congr (mem_sortedDedup _ _)))
  refine ⟨?_, ?_, ?_⟩
  · unfold api_upload_complete
    dsimp only
    rw [hf]
    dsimp only
    rw [if_neg (by simp [hpub])]
    rw [if_neg (by simp [huser])]
    rw [if_neg (by rcases caller with _ | u <;> simp [huser])]
    rw [if_pos hne, hfe]
  · exact (List.pairwise_lt_range session.totalChunks).filter _
  · intro j
    rw [List.mem_filter, List.mem_range]
    simp

/-- C2 witness: a 3-chunk session that has received only `[0]`: `complete`
fails with missing list `[1, 2]`. -/
theorem upload_complete_conflict_missing_witness :
    (∃ missing,
      api_upload_complete none (some 7) 86400 1003 42
        { sessions := [{ freshSession none 7 "f.bin" "" 26 10 3 1000 with
                         receivedChunks := [0] }],
          chunks := [((7, 0), [0, 1, 2, 3, 4, 5, 6, 7, 8, 9])] }
        { slot := { file := none, text := none, slotUpdatedAt := 999 },
          blobs := [] } = .error (.conflictMissing missing) ∧
      missing = [1, 2]) := by
  obtain ⟨h1, -, -⟩ := upload_complete_conflict_missing none 7 86400 1003 42
    { sessions := [{ freshSession none 7 "f.bin" "" 26 10 3 1000 with
                     receivedChunks := [0] }],
      chunks := [((7, 0), [0, 1, 2, 3, 4, 5, 6, 7, 8, 9])] }
    { slot := { file := none, text := none, slotUpdatedAt := 999 }, blobs := [] }
    { freshSession none 7 "f.bin" "" 26 10 3 1000 with receivedChunks := [0] }
    (by rfl) (by rfl) (by rfl) ⟨by decide, by decide⟩ 1 (by decide) (by decide)
  refine ⟨_, h1, by decide⟩

/-- C6: the assembled blob reaches the `ShareSlot` only if its size equals
`totalSize` exactly: a size mismatch fails `Conflict` before any slot or
blob mutation, and every successful completion delivers a blob of exactly
`totalSize` bytes into the slot. -/
theorem upload_complete_size_verified (caller : Option Nat) (uploadId : Nat)
    (slotTtl now : Int) (freshBlob : Nat) (st : ServerState) (sh : ShareState)
    (session : UploadSession)
    (hf : findSession st.sessions uploadId = some session)
    (hpub : session.isPublic = caller.isNone) (huser : session.userId = caller) :
    (∀ blob, assemble st.chunks session.sid session.totalChunks = some blob →
      blob.length ≠ session.totalSize →
      (sortedDedup session.receivedChunks).length = session.totalChunks →
      api_upload_complete caller (some uploadId) slotTtl now freshBlob st sh =
        .error .conflictSizeMismatch) ∧
    (∀ stF shF,
      api_upload_complete caller (some uploadId) slotTtl now freshBlob st sh =
        .ok (stF, shF) →
      ∃ blob, (freshBlob, blob) ∈ shF.blobs ∧
        shF.slot.file = some (freshBlob, session.filename) ∧
        blob.length = session.totalSize) := by
  unfold api_upload_complete
  dsimp only
  rw [hf]
  dsimp only
  rw [if_neg (by simp [hpub])]
  rw [if_neg (by simp [huser])]
  rw [if_neg (by rcases caller with _ | u <;> simp [huser])]
  constructor
  · intro blob hasm hlen hcomplete
    rw [if_neg (by omega), hasm]
    dsimp only
    rw [if_pos hlen]
  · intro stF shF hok
    split at hok
    · cases hok
    · split at hok
      · cases hok
      · next blob hasm =>
        split at hok
        · cases hok
        · next hlen =>
          obtain ⟨-, hsh⟩ := Prod.ext_iff.mp (Except.ok.inj hok)
          dsimp only at hsh
          refine ⟨blob, ?_, ?_, by omega⟩
          · rw [← hsh]; exact List.mem_cons_self _ _
          · rw [← hsh]

/-- C6 witness: assembling 20 bytes for a session declaring
`totalSize = 26` fails `Conflict`. -/
theorem upload_complete_size_verified_witness :
    (assemble [((7, 0), List.range 10), ((7, 1), List.range 10),
        ((7, 2), List.range 10)] 7 3 = some (List.range 10 ++
        (List.range 10 ++ (List.range 10 ++ []))) ∧
     (List.range 10 ++ (List.range 10 ++ (List.range 10 ++ []))).length ≠ 26) ∧
    api_upload_complete none (some 7) 86400 1003 42
      { sessions := [{ freshSession none 7 "f.bin" "" 26 10 3 1000 with
                       receivedChunks := [0, 1, 2] }],
        chunks := [((7, 0), List.range 10), ((7, 1), List.range 10),
          ((7, 2), List.range 10)] }
      { slot := { file := none, text := none, slotUpdatedAt := 999 },
        blobs := [] } = .error .conflictSizeMismatch := by
  have h := upload_complete_size_verified none 7 86400 1003 42
    { sessions := [{ freshSession none 7 "f.bin" "" 26 10 3 1000 with
                     receivedChunks := [0, 1, 2] }],
      chunks := [((7, 0), List.range 10), ((7, 1), List.range 10),
        ((7, 2), List.range 10)] }
    { slot := { file := none, text := none, slotUpdatedAt := 999 }, blobs := [] }
    { freshSession none 7 "f.bin" "" 26 10 3 1000 with receivedChunks := [0, 1, 2] }
    (by rfl) (by rfl) (by rfl)
  exact ⟨⟨by rfl, by decide⟩,
    h.1 _ (by rfl) (by decide) (by decide)⟩

theorem findSession_cleanup {ttl now : Int} {st : ServerState} {sid : Nat}
    {s : UploadSession} (hf : findSession st.sessions sid = some s)
    (hlive : ttl ≤ 0 ∨ now - ttl ≤ s.updatedAt) :
    findSession (cleanupExpired ttl now st).sessions sid = some s := by
  unfold cleanupExpired
  by_cases ht : ttl ≤ 0
  · rw [if_pos ht]; exact hf
  · rw [if_neg ht]
    dsimp only
    refine find?_filter_of_find? _ _ hf ?_
    simp only [Bool.not_eq_true', decide_eq_false_iff_not, not_lt]
    rcases hlive with h | h
    · exact absurd h ht
    · exact h

theorem reconcileOnResume_id {s : UploadSession} (now : Int)
    (hinv : SessionInv s) :
    (reconcileOnResume s s.totalChunks now).receivedChunks = s.receivedChunks := by
  have hfil : s.receivedChunks.filter
      (fun v => decide (0 ≤ v ∧ v < (s.totalChunks : Int))) = s.receivedChunks :=
    List.filter_eq_self.mpr (fun a ha => by simpa using hinv.2 a ha)
  show sortedDedup _ = _
  rw [hfil, sortedDedup_of_pairwise hinv.1]

/-- C4: `start` with a prior session id and the exact same
`(scope, filename, totalSize, chunkSize)` returns that session id with the
previously recorded `receivedChunks`; the same id with a different
filename, totalSize or effective chunk size instead creates a fresh
session with empty `receivedChunks`. -/
theorem upload_start_resume_semantics (caller : Option Nat) (maxBytes : Nat)
    (ttl now : Int) (freshId : Nat) (filename : String) (totalSize : Int)
    (contentType : String) (chunkSizeReq : Int) (st : ServerState)
    (session : UploadSession)
    (hf : findSession st.sessions session.sid = some session)
    (hlive : ttl ≤ 0 ∨ now - ttl ≤ session.updatedAt)
    (hpub : session.isPublic = caller.isNone) (huser : session.userId = caller)
    (hinv : SessionInv session)
    (htc : session.totalChunks =
      totalChunksOf (session.totalSize : Int) session.chunkSize)
    (hname : filename ≠ "") (hpos : 0 < totalSize)
    (hmax : totalSize ≤ (maxBytes : Int)) :
    (session.filename = filename → (session.totalSize : Int) = totalSize →
      effectiveChunkSize chunkSizeReq = session.chunkSize →
      ∃ st', api_upload_start caller maxBytes ttl now freshId filename totalSize
          contentType chunkSizeReq (some session.sid) st =
        .ok ({ uploadId := session.sid, chunkSize := session.chunkSize,
               totalChunks := session.totalChunks,
               receivedChunks := session.receivedChunks }, st')) ∧
    (session.filename ≠ filename ∨ (session.totalSize : Int) ≠ totalSize ∨
      effectiveChunkSize chunkSizeReq ≠ session.chunkSize →
      ∃ st', api_upload_start caller maxBytes ttl now freshId filename totalSize
          contentType chunkSizeReq (some session.sid) st =
        .ok ({ uploadId := freshId,
               chunkSize := effectiveChunkSize chunkSizeReq,
               totalChunks := totalChunksOf totalSize (effectiveChunkSize chunkSizeReq),
               receivedChunks := [] }, st')) := by
  have hfind := findSession_cleanup hf hlive
  constructor
  · intro hfn hts hcs
    have hro := findReusable_of_match hfind hpub huser hfn hts hcs.symm
    have htc2 : totalChunksOf totalSize (effectiveChunkSize chunkSizeReq) =
        session.totalChunks := by rw [hcs, ← hts, htc]
    unfold api_upload_start
    rw [if_neg (by push_neg; exact ⟨hname, by omega⟩)]
    rw [if_neg (not_lt.mpr hmax)]
    rw [hro]
    dsimp only
    rw [htc2, reconcileOnResume_id now hinv]
    exact ⟨_, rfl⟩
  · intro hmis
    have hro := @findReusable_none_of_mismatch caller filename
      totalSize (effectiveChunkSize chunkSizeReq) session.sid
      (cleanupExpired ttl now st).sessions session hfind
      (by rcases hmis with h | h | h
          · exact Or.inl h
          · exact Or.inr (Or.inl h)
          · exact Or.inr (Or.inr (fun he => h he.symm)))
    unfold api_upload_start
    rw [if_neg (by push_neg; exact ⟨hname, by omega⟩)]
    rw [if_neg (not_lt.mpr hmax)]
    rw [hro]
    dsimp only
    exact ⟨_, rfl⟩

/-- C4 witness: a session (`sid = 7`, `filename = "f.bin"`,
`totalSize = 26`, `chunkSize = 10`, `receivedChunks = [0, 2]`): resuming
with the identical parameters reports `[0, 2]` under id 7; renaming to
`"g.bin"`, declaring `totalSize = 30`, or requesting `chunk_size = 13`
each yields fresh session 9 with `[]`. -/
theorem upload_start_resume_semantics_witness :
    (∃ st', api_upload_start none 10485760 86400 1003 9 "f.bin" 26 "" 10 (some 7)
        { sessions := [{ freshSession none 7 "f.bin" "" 26 10 3 1000 with
                         receivedChunks := [0, 2] }],
          chunks := [] } =
      .ok ({ uploadId := 7, chunkSize := 10, totalChunks := 3,
             receivedChunks := [0, 2] }, st')) ∧
    (∃ st', api_upload_start none 10485760 86400 1003 9 "g.bin" 26 "" 10 (some 7)
        { sessions := [{ freshSession none 7 "f.bin" "" 26 10 3 1000 with
                         receivedChunks := [0, 2] }],
          chunks := [] } =
      .ok ({ uploadId := 9, chunkSize := 10, totalChunks := 3,
             receivedChunks := [] }, st')) ∧
    (∃ st', api_upload_start none 10485760 86400 1003 9 "f.bin" 30 "" 10 (some 7)
        { sessions := [{ freshSession none 7 "f.bin" "" 26 10 3 1000 with
                         receivedChunks := [0, 2] }],
          chunks := [] } =
      .ok ({ uploadId := 9, chunkSize := 10, totalChunks := 3,
             receivedChunks := [] }, st')) ∧
    (∃ st', api_upload_start none 10485760 86400 1003 9 "f.bin" 26 "" 13 (some 7)
        { sessions := [{ freshSession none 7 "f.bin" "" 26 10 3 1000 with
                         receivedChunks := [0, 2] }],
          chunks := [] } =
      .ok ({ uploadId := 9, chunkSize := 13, totalChunks := 2,
             receivedChunks := [] }, st')) := by
  refine ⟨?_, ?_, ?_, ?_⟩
  · exact (upload_start_resume_semantics none 10485760 86400 1003 9 "f.bin" 26 ""
      10 { sessions := [{ freshSession none 7 "f.bin" "" 26 10 3 1000 with
                          receivedChunks := [0, 2] }], chunks := [] }
      { freshSession none 7 "f.bin" "" 26 10 3 1000 with receivedChunks := [0, 2] }
      (by rfl) (by right; decide) (by rfl) (by rfl) ⟨by decide, by decide⟩
      (by decide) (by decide) (by decide) (by decide)).1
      (by rfl) (by decide) (by decide)
  · exact (upload_start_resume_semantics none 10485760 86400 1003 9 "g.bin" 26 ""
      10 { sessions := [{ freshSession none 7 "f.bin" "" 26 10 3 1000 with
                          receivedChunks := [0, 2] }], chunks := [] }
      { freshSession none 7 "f.bin" "" 26 10 3 1000 with receivedChunks := [0, 2] }
      (by rfl) (by right; decide) (by rfl) (by rfl) ⟨by decide, by decide⟩
      (by decide) (by decide) (by decide) (by decide)).2
      (Or.inl (by decide))
  · exact (upload_start_resume_semantics none 10485760 86400 1003 9 "f.bin" 30 ""
      10 { sessions := [{ freshSession none 7 "f.bin" "" 26 10 3 1000 with
                          receivedChunks := [0, 2] }], chunks := [] }
      { freshSession none 7 "f.bin" "" 26 10 3 1000 with receivedChunks := [0, 2] }
      (by rfl) (by right; decide) (by rfl) (by rfl) ⟨by decide, by decide⟩
      (by decide) (by decide) (by decide) (by decide)).2
      (Or.inr (Or.inl (by decide)))
  · exact (upload_start_resume_semantics none 10485760 86400 1003 9 "f.bin" 26 ""
      13 { sessions := [{ freshSession none 7 "f.bin" "" 26 10 3 1000 with
                          receivedChunks := [0, 2] }], chunks := [] }
      { freshSession none 7 "f.bin" "" 26 10 3 1000 with receivedChunks := [0, 2] }
      (by rfl) (by right; decide) (by rfl) (by rfl) ⟨by decide, by decide⟩
      (by decide) (by decide) (by decide) (by decide)).2
      (Or.inr (Or.inr (by decide)))

theorem findSession_cleanup_expired {ttl now : Int} {st : ServerState} {sid : Nat}
    (ht : 0 < ttl)
    (hexp : ∀ t ∈ st.sessions, t.sid = sid → t.updatedAt < now - ttl) :
    findSession (cleanupExpired ttl now st).sessions sid = none := by
  unfold cleanupExpired
  rw [if_neg (by omega)]
  dsimp only
  unfold findSession
  rw [List.find?_eq_none]
  intro t htmem
  rw [List.mem_filter] at htmem
  obtain ⟨htmem, hkeep⟩ := htmem
  simp only [Bool.not_eq_true', decide_eq_false_iff_not, not_lt] at hkeep
  simp only [beq_iff_eq]
  intro hsid
  exact absurd (hexp t htmem hsid) (by omega)

theorem cleanup_chunks_removed {ttl now : Int} {st : ServerState}
    {s : UploadSession} (ht : 0 < ttl) (hmem : s ∈ st.sessions)
    (hexp : s.updatedAt < now - ttl) (i : Int) :
    storeGet (cleanupExpired ttl now st).chunks s.sid i = none := by
  unfold cleanupExpired
  rw [if_neg (by omega)]
  dsimp only
  apply storeGet_foldl_delete_of_mem
  refine ⟨s, List.mem_filter.mpr ⟨hmem, ?_⟩, rfl⟩
  simp only [decide_eq_true_eq]
  exact hexp

/-- C9: a session whose `updatedAt` is older than `now - ttl` (with a
positive configured TTL) is removed by the sweep that `start` runs before
its reuse lookup — its registry row is gone, its chunk directory is gone —
so a `start` naming its id always creates a fresh session instead of
reusing it. -/
theorem upload_session_ttl_sweep (caller : Option Nat) (maxBytes : Nat)
    (ttl now : Int) (freshId : Nat) (filename : String) (totalSize : Int)
    (contentType : String) (chunkSizeReq : Int) (st : ServerState)
    (s : UploadSession) (hmem : s ∈ st.sessions)
    (ht : 0 < ttl) (hexp : s.updatedAt < now - ttl)
    (huniq : ∀ t ∈ st.sessions, t.sid = s.sid → t = s)
    (hname : filename ≠ "") (hpos : 0 < totalSize)
    (hmax : totalSize ≤ (maxBytes : Int)) :
    findSession (cleanupExpired ttl now st).sessions s.sid = none ∧
    (∀ i : Int, storeGet (cleanupExpired ttl now st).chunks s.sid i = none) ∧
    ∃ st',
      api_upload_start caller maxBytes ttl now freshId filename totalSize
          contentType chunkSizeReq (some s.sid) st =
        .ok ({ uploadId := freshId, chunkSize := effectiveChunkSize chunkSizeReq,
               totalChunks := totalChunksOf totalSize (effectiveChunkSize chunkSizeReq),
               receivedChunks := [] }, st') ∧
      (∀ i : Int, storeGet st'.chunks s.sid i = none) := by
  have hexp' : ∀ t ∈ st.sessions, t.sid = s.sid → t.updatedAt < now - ttl :=
    fun t htm hs => (huniq t htm hs) ▸ hexp
  have hgone := findSession_cleanup_expired ht hexp'
  have hchunks := fun i => cleanup_chunks_removed ht hmem hexp i
  refine ⟨hgone, hchunks, ?_⟩
  have hro := @findReusable_none_of_not_found caller filename totalSize
    (effectiveChunkSize chunkSizeReq) s.sid (cleanupExpired ttl now st).sessions
    hgone
  unfold api_upload_start
  rw [if_neg (by push_neg; exact ⟨hname, by omega⟩)]
  rw [if_neg (not_lt.mpr hmax)]
  rw [hro]
  dsimp only
  exact ⟨_, rfl, hchunks⟩

/-- C9 witness: a session last touched at time 1000 with TTL 100 is swept
by a `start` at time 2000: the reuse lookup misses, the chunk file at
index 0 is gone, and a fresh session (id 9) is created. -/
theorem upload_session_ttl_sweep_witness :
    findSession (cleanupExpired 100 2000
      { sessions := [{ freshSession none 7 "f.bin" "" 26 10 3 1000 with
                       receivedChunks := [0] }],
        chunks := [((7, 0), [0, 1, 2, 3, 4, 5, 6, 7, 8, 9])] }).sessions 7 =
      none ∧
    ∃ st',
      api_upload_start none 10485760 100 2000 9 "g.bin" 26 "" 10 (some 7)
        { sessions := [{ freshSession none 7 "f.bin" "" 26 10 3 1000 with
                         receivedChunks := [0] }],
          chunks := [((7, 0), [0, 1, 2, 3, 4, 5, 6, 7, 8, 9])] } =
        .ok ({ uploadId := 9, chunkSize := 10, totalChunks := 3,
               receivedChunks := [] }, st') ∧
      storeGet st'.chunks 7 0 = none := by
  obtain ⟨h1, -, st', hok, hchunks⟩ := upload_session_ttl_sweep none 10485760
    100 2000 9 "g.bin" 26 "" 10
    { sessions := [{ freshSession none 7 "f.bin" "" 26 10 3 1000 with
                     receivedChunks := [0] }],
      chunks := [((7, 0), [0, 1, 2, 3, 4, 5, 6, 7, 8, 9])] }
    { freshSession none 7 "f.bin" "" 26 10 3 1000 with receivedChunks := [0] }
    (by simp) (by decide) (by decide)
    (by intro t htm hs; simpa using htm)
    (by decide) (by decide) (by decide)
  exact ⟨h1, st', hok, hchunks 0⟩

theorem mem_cleanup {ttl now : Int} {st : ServerState} {t : UploadSession}
    (h : t ∈ (cleanupExpired ttl now st).sessions) : t ∈ st.sessions := by
  unfold cleanupExpired at h
  split at h
  · exact h
  · exact (List.mem_filter.mp h).1

theorem mem_updateSession {sessions : List UploadSession} {s t : UploadSession}
    (h : t ∈ updateSession sessions s) : t = s ∨ t ∈ sessions := by
  unfold updateSession at h
  obtain ⟨u, hu, hut⟩ := List.mem_map.mp h
  by_cases hc : (u.sid == s.sid) = true
  · rw [if_pos hc] at hut
    exact Or.inl hut.symm
  · rw [if_neg hc] at hut
    exact Or.inr (hut ▸ hu)

theorem reconcileOnResume_inv (s : UploadSession) (tc : Nat) (now : Int) :
    SessionInv (reconcileOnResume s tc now) := by
  constructor
  · exact sortedDedup_pairwise _
  · intro v hv
    have hmem := (mem_sortedDedup _ _).mp hv
    rw [List.mem_filter] at hmem
    have := hmem.2
    simp only [decide_eq_true_eq] at this
    exact this

theorem freshSession_inv (caller : Option Nat) (freshId : Nat) (filename : String)
    (contentType : String) (totalSize : Int) (chunkSize totalChunks : Nat)
    (now : Int) :
    SessionInv (freshSession caller freshId filename contentType totalSize
      chunkSize totalChunks now) := by
  constructor
  · exact List.Pairwise.nil
  · intro v hv
    cases hv

/-- C10: every session state reachable through `start` and `putChunk`
keeps `received_chunks` strictly ascending with all entries in
`[0, totalChunks)`; and under that invariant `complete`'s completeness
test (`len(received) == totalChunks`) holds exactly when the missing-index
list is empty. -/
theorem received_chunks_invariant (caller : Option Nat) :
    (∀ (maxBytes : Nat) (ttl now : Int) (freshId : Nat) (filename : String)
      (totalSize : Int) (contentType : String) (chunkSizeReq : Int)
      (uploadId : Option Nat) (st : ServerState) resp st',
      api_upload_start caller maxBytes ttl now freshId filename totalSize
        contentType chunkSizeReq uploadId st = .ok (resp, st') →
      ∀ t ∈ st'.sessions, t ∈ st.sessions ∨ SessionInv t) ∧
    (∀ (uploadId : Nat) (index : Int) (bytesOpt : Option Bytes) (now : Int)
      (st : ServerState) counts st',
      api_upload_chunk caller uploadId index bytesOpt now st = .ok (counts, st') →
      (∀ t ∈ st.sessions, SessionInv t) →
      ∀ t ∈ st'.sessions, SessionInv t) ∧
    (∀ s : UploadSession, SessionInv s →
      ((sortedDedup s.receivedChunks).length = s.totalChunks ↔
        (List.range s.totalChunks).filter
          (fun j : Nat => decide ((j : Int) ∉ sortedDedup s.receivedChunks)) =
          [])) := by
  refine ⟨?_, ?_, ?_⟩
  · intro maxBytes ttl now freshId filename totalSize contentType chunkSizeReq
      uploadId st resp st' hok t htmem
    unfold api_upload_start at hok
    split at hok
    · cases hok
    · split at hok
      · cases hok
      · split at hok
        · obtain ⟨-, hst⟩ := Prod.ext_iff.mp (Except.ok.inj hok)
          dsimp only at hst
          rw [← hst] at htmem
          dsimp only at htmem
          rcases List.mem_cons.mp htmem with rfl | htmem
          · exact Or.inr (freshSession_inv _ _ _ _ _ _ _ _)
          · exact Or.inl (mem_cleanup htmem)
        · obtain ⟨-, hst⟩ := Prod.ext_iff.mp (Except.ok.inj hok)
          dsimp only at hst
          rw [← hst] at htmem
          dsimp only at htmem
          rcases mem_updateSession htmem with rfl | htmem
          · exact Or.inr (reconcileOnResume_inv _ _ _)
          · exact Or.inl (mem_cleanup htmem)
  · intro uploadId index bytesOpt now st counts st' hok hall t htmem
    unfold api_upload_chunk at hok
    cases hf : findSession st.sessions uploadId with
    | none => rw [hf] at hok; cases hok
    | some session =>
      rw [hf] at hok
      dsimp only at hok
      split at hok
      · cases hok
      · split at hok
        · cases hok
        · split at hok
          · cases hok
          · split at hok
            · next hidx => cases hok
            · next hidx =>
              cases bytesOpt with
              | none => cases hok
              | some bytes =>
                dsimp only at hok
                split at hok
                · cases hok
                · obtain ⟨-, hst⟩ := Prod.ext_iff.mp (Except.ok.inj hok)
                  dsimp only at hst
                  rw [← hst] at htmem
                  dsimp only at htmem
                  have hsinv := hall session (findSession_mem hf)
                  rcases mem_updateSession htmem with rfl | htmem
                  · constructor
                    · exact sortedDedup_pairwise _
                    · intro v hv
                      rcases List.mem_cons.mp
                          ((mem_sortedDedup v _).mp hv) with rfl | hv'
                      · dsimp only
                        omega
                      · have := hsinv.2 v hv'
                        dsimp only
                        exact this
                  · exact hall t htmem
  · intro s hinv
    have hb : ∀ v ∈ sortedDedup s.receivedChunks,
        0 ≤ v ∧ v < (s.totalChunks : Int) :=
      fun v hv => hinv.2 v ((mem_sortedDedup v _).mp hv)
    rw [length_eq_iff_all_mem (sortedDedup_pairwise _) hb]
    rw [List.filter_eq_nil_iff]
    constructor
    · intro hall j hj
      simp only [List.mem_range] at hj
      simp only [decide_eq_true_eq, Decidable.not_not]
      exact Decidable.not_not.mp (by simpa using not_not_intro (hall j hj))
    · intro hall i hi
      have := hall i (List.mem_range.mpr hi)
      simpa using this

/-- C10 witness: a two-step reachable state (fresh session, then chunk 2
uploaded) satisfies the invariant, and the equivalence holds on it. -/
theorem received_chunks_invariant_witness :
    (∃ st',
      api_upload_chunk none 7 2 (some [20, 21, 22]) 1001
        { sessions := [freshSession none 7 "f.bin" "" 26 10 3 1000],
          chunks := [] } = .ok ((1, 3), st') ∧
      ∀ t ∈ st'.sessions, SessionInv t) ∧
    ((sortedDedup ([0, 1, 2] : List Int)).length = 3 ↔
      (List.range 3).filter
        (fun j : Nat => decide ((j : Int) ∉ sortedDedup ([0, 1, 2] : List Int))) =
        []) := by
  obtain ⟨-, hchunk, hequiv⟩ := received_chunks_invariant none
  refine ⟨⟨_, by rfl, ?_⟩, ?_⟩
  · intro t htmem
    refine hchunk 7 2 (some [20, 21, 22]) 1001
      { sessions := [freshSession none 7 "f.bin" "" 26 10 3 1000], chunks := [] }
      (1, 3) _ (by rfl) ?_ t htmem
    intro u humem
    rcases List.mem_cons.mp humem with rfl | h
    · exact freshSession_inv _ _ _ _ _ _ _ _
    · cases h
  · exact hequiv { freshSession none 7 "f.bin" "" 26 10 3 1000 with
      receivedChunks := [0, 1, 2] } ⟨by decide, by decide⟩

theorem mem_deleteFieldFile {blobs : List (Nat × Bytes)}
    {file : Option (Nat × String)} {x : Nat}
    (h : x ∈ (deleteFieldFile blobs file).map Prod.fst) :
    x ∈ blobs.map Prod.fst := by
  cases file with
  | none => exact h
  | some p =>
    obtain ⟨b, n⟩ := p
    obtain ⟨q, hq, hqx⟩ := List.mem_map.mp h
    exact List.mem_map.mpr ⟨q, (List.mem_filter.mp hq).1, hqx⟩

theorem not_mem_deleteFieldFile_self (blobs : List (Nat × Bytes)) (b : Nat)
    (n : String) : b ∉ (deleteFieldFile blobs (some (b, n))).map Prod.fst := by
  intro hmem
  obtain ⟨q, hq, hqb⟩ := List.mem_map.mp hmem
  have := (List.mem_filter.mp hq).2
  simp only [decide_eq_true_eq] at this
  exact this (by rw [hqb])

theorem maybeExpireShare_cases (ttl now : Int) (sh : ShareState) :
    maybeExpireShare ttl now sh = sh ∨
    maybeExpireShare ttl now sh =
      { slot := { file := none, text := none, slotUpdatedAt := now },
        blobs := deleteFieldFile sh.blobs sh.slot.file } := by
  unfold maybeExpireShare
  split
  · exact Or.inl rfl
  · split
    · exact Or.inl rfl
    · exact Or.inr rfl

theorem expired_blob_deleted {ttl now : Int} {sh : ShareState} {b : Nat}
    {n : String} (hfile : sh.slot.file = some (b, n)) :
    b ∉ (deleteFieldFile (maybeExpireShare ttl now sh).blobs
      (maybeExpireShare ttl now sh).slot.file).map Prod.fst := by
  rcases maybeExpireShare_cases ttl now sh with hcase | hcase
  · rw [hcase, hfile]
    exact not_mem_deleteFieldFile_self _ _ _
  · have hred : deleteFieldFile (maybeExpireShare ttl now sh).blobs
        (maybeExpireShare ttl now sh).slot.file =
        deleteFieldFile sh.blobs sh.slot.file := by
      rw [hcase]
      rfl
    rw [hred, hfile]
    exact not_mem_deleteFieldFile_self _ _ _

/-- C8: after each slot-writing operation (whole-file upload, text
upload, chunked-upload completion, clear, lazy expiry) at most one of
the slot's file and text fields is set, and when the slot held a file
that the operation replaces or clears, that file's blob is no longer in
storage afterwards. -/
theorem slot_exclusive_and_blob_deleted (ttl now : Int) (freshBlob : Nat)
    (sh : ShareState) (hinv : SlotInv sh)
    (hfresh : freshBlob ∉ sh.blobs.map Prod.fst) :
    (∀ maxBytes name bytes err sh',
      upload_view maxBytes ttl now freshBlob (.file name bytes) sh = (err, sh') →
      SlotInv sh' ∧
      (err = none → ∀ b n, sh.slot.file = some (b, n) →
        b ∉ sh'.blobs.map Prod.fst)) ∧
    (∀ maxBytes content err sh',
      upload_view maxBytes ttl now freshBlob (.text content) sh = (err, sh') →
      SlotInv sh' ∧
      ∀ b n, sh.slot.file = some (b, n) → b ∉ sh'.blobs.map Prod.fst) ∧
    (∀ caller uploadIdOpt slotTtl stIn stF shF,
      api_upload_complete caller uploadIdOpt slotTtl now freshBlob stIn sh =
        .ok (stF, shF) →
      SlotInv shF ∧
      ∀ b n, sh.slot.file = some (b, n) → b ∉ shF.blobs.map Prod.fst) ∧
    (SlotInv (api_share_clear now sh) ∧
      ∀ b n, sh.slot.file = some (b, n) →
        b ∉ (api_share_clear now sh).blobs.map Prod.fst) ∧
    (SlotInv (maybeExpireShare ttl now sh) ∧
      (maybeExpireShare ttl now sh ≠ sh →
        ∀ b n, sh.slot.file = some (b, n) →
          b ∉ (maybeExpireShare ttl now sh).blobs.map Prod.fst)) := by
  have hexpinv : SlotInv (maybeExpireShare ttl now sh) := by
    rcases maybeExpireShare_cases ttl now sh with hcase | hcase <;> rw [hcase]
    · exact hinv
    · exact ⟨Or.inl rfl, by intro b n h; cases h⟩
  have hbne : ∀ b n, sh.slot.file = some (b, n) → b ≠ freshBlob := by
    intro b n hfile hbe
    exact hfresh (hbe ▸ hinv.2 b n hfile)
  refine ⟨?_, ?_, ?_, ?_, ?_⟩
  · intro maxBytes name bytes err sh' hview
    unfold upload_view at hview
    dsimp only at hview
    split at hview
    · obtain ⟨herr, hsh⟩ := Prod.ext_iff.mp hview
      dsimp only at herr hsh
      rw [← hsh]
      refine ⟨hexpinv, ?_⟩
      intro hnone
      rw [← herr] at hnone
      cases hnone
    · obtain ⟨herr, hsh⟩ := Prod.ext_iff.mp hview
      dsimp only at herr hsh
      rw [← hsh]
      constructor
      · constructor
        · exact Or.inr rfl
        · intro b n hb
          obtain rfl := (Prod.ext_iff.mp (Option.some.inj hb)).1
          exact List.mem_map.mpr ⟨(freshBlob, bytes), List.mem_cons_self _ _, rfl⟩
      · intro _ b n hfile hmem
        rcases List.mem_map.mp hmem with ⟨q, hq, hqb⟩
        rcases List.mem_cons.mp hq with rfl | hq
        · exact hbne b n hfile hqb.symm
        · exact expired_blob_deleted hfile (List.mem_map.mpr ⟨q, hq, hqb⟩)
  · intro maxBytes content err sh' hview
    unfold upload_view at hview
    dsimp only at hview
    obtain ⟨herr, hsh⟩ := Prod.ext_iff.mp hview
    dsimp only at herr hsh
    rw [← hsh]
    constructor
    · exact ⟨Or.inl rfl, by intro b n h; cases h⟩
    · intro b n hfile
      exact expired_blob_deleted hfile
  · intro caller uploadIdOpt slotTtl stIn stF shF hok
    unfold api_upload_complete at hok
    cases uploadIdOpt with
    | none => cases hok
    | some uploadId =>
      dsimp only at hok
      cases hfs : findSession stIn.sessions uploadId with
      | none => rw [hfs] at hok; cases hok
      | some session =>
        rw [hfs] at hok
        dsimp only at hok
        split at hok
        · cases hok
        · split at hok
          · cases hok
          · split at hok
            · cases hok
            · split at hok
              · cases hok
              · split at hok
                · cases hok
                · split at hok
                  · cases hok
                  · obtain ⟨-, hsh⟩ := Prod.ext_iff.mp (Except.ok.inj hok)
                    dsimp only at hsh
                    rw [← hsh]
                    constructor
                    · constructor
                      · exact Or.inr rfl
                      · intro b n hb
                        obtain rfl := (Prod.ext_iff.mp (Option.some.inj hb)).1
                        exact List.mem_map.mpr ⟨_, List.mem_cons_self _ _, rfl⟩
                    · intro b n hfile hmem
                      rcases List.mem_map.mp hmem with ⟨q, hq, hqb⟩
                      rcases List.mem_cons.mp hq with rfl | hq
                      · exact hbne b n hfile hqb.symm
                      · exact expired_blob_deleted hfile
                          (List.mem_map.mpr ⟨q, hq, hqb⟩)
  · refine ⟨⟨Or.inl rfl, by intro b n h; cases h⟩, ?_⟩
    intro b n hfile
    unfold api_share_clear
    dsimp only
    rw [hfile]
    exact not_mem_deleteFieldFile_self _ _ _
  · refine ⟨hexpinv, ?_⟩
    intro hne b n hfile
    rcases maybeExpireShare_cases ttl now sh with hcase | hcase
    · exact absurd hcase hne
    · rw [hcase]
      dsimp only
      rw [hfile]
      exact not_mem_deleteFieldFile_self _ _ _

/-- C8 witness: a slot holding file blob 5 with one live blob: a text
upload leaves only text set and deletes blob 5. -/
theorem slot_exclusive_and_blob_deleted_witness :
    (SlotInv { slot := { file := some (5, "old.bin"), text := none,
                         slotUpdatedAt := 999 },
               blobs := [(5, [1, 2, 3])] } ∧
     (42 : Nat) ∉ ([(5, [1, 2, 3])] : List (Nat × Bytes)).map Prod.fst) ∧
    ∃ sh',
      upload_view 10485760 86400 1000 42 (.text "hello")
        { slot := { file := some (5, "old.bin"), text := none,
                    slotUpdatedAt := 999 },
          blobs := [(5, [1, 2, 3])] } = (none, sh') ∧
      SlotInv sh' ∧ (5 : Nat) ∉ sh'.blobs.map Prod.fst := by
  have hinv : SlotInv
      { slot := { file := some (5, "old.bin"), text := none,
                  slotUpdatedAt := 999 },
        blobs := [(5, [1, 2, 3])] } := by
    refine ⟨Or.inr rfl, ?_⟩
    intro b n hb
    obtain ⟨h1, -⟩ := Prod.ext_iff.mp (Option.some.inj hb)
    have hb5 : b = 5 := by simpa using h1.symm
    rw [hb5]
    decide
  obtain ⟨-, htext, -⟩ := slot_exclusive_and_blob_deleted 86400 1000 42
    { slot := { file := some (5, "old.bin"), text := none, slotUpdatedAt := 999 },
      blobs := [(5, [1, 2, 3])] } hinv (by decide)
  obtain ⟨hinv', hdel⟩ := htext 10485760 "hello" none _ rfl
  exact ⟨⟨hinv, by decide⟩, _, rfl, hinv', hdel 5 "old.bin" rfl⟩

theorem lastWrittenBytes_isSome_of_mem {ops : List (Int × Bytes)} {i : Int}
    (h : i ∈ ops.map Prod.fst) : ∃ b, lastWrittenBytes ops i = some b := by
  unfold lastWrittenBytes
  cases hfind : ops.reverse.find? (fun p => p.1 == i) with
  | some p => exact ⟨p.2, rfl⟩
  | none =>
    rw [List.find?_eq_none] at hfind
    obtain ⟨p, hp, hpi⟩ := List.mem_map.mp h
    exact absurd (by simpa using hpi)
      (by simpa using hfind p (List.mem_reverse.mpr hp))

/-- Running a sequence of successful `putChunk` requests: the session row
keeps its identity and parameters, `received_chunks` accumulates exactly
the uploaded indices, and the chunk store afterwards holds, for every
index, the bytes of its most recent upload. -/
theorem runChunks_spec (caller : Option Nat) (sid : Nat) (now : Int) :
    ∀ (ops : List (Int × Bytes)) (st : ServerState) (σ : UploadSession),
      findSession st.sessions sid = some σ →
      σ.isPublic = caller.isNone → σ.userId = caller →
      σ.receivedChunks.Pairwise (· < ·) →
      (∀ op ∈ ops, chunkOpOK σ.totalChunks σ.chunkSize op) →
      ∃ st' σ',
        runChunks caller sid now ops st = .ok st' ∧
        findSession st'.sessions sid = some σ' ∧
        σ'.isPublic = σ.isPublic ∧ σ'.userId = σ.userId ∧
        σ'.totalChunks = σ.totalChunks ∧ σ'.chunkSize = σ.chunkSize ∧
        σ'.totalSize = σ.totalSize ∧ σ'.filename = σ.filename ∧
        σ'.receivedChunks.Pairwise (· < ·) ∧
        (∀ v : Int, v ∈ σ'.receivedChunks ↔
          v ∈ ops.map Prod.fst ∨ v ∈ σ.receivedChunks) ∧
        (∀ (i : Int) (b : Bytes), lastWrittenBytes ops i = some b →
          storeGet st'.chunks sid i = some b) ∧
        (∀ i : Int, lastWrittenBytes ops i = none →
          storeGet st'.chunks sid i = storeGet st.chunks sid i) := by
  intro ops
  induction ops with
  | nil =>
    intro st σ hf hpub huser hinv _
    refine ⟨st, σ, rfl, hf, rfl, rfl, rfl, rfl, rfl, rfl, hinv, by simp,
      ?_, fun i _ => rfl⟩
    intro i b h
    cases h
  | cons op rest ih =>
    intro st σ hf hpub huser hinv hops
    obtain ⟨hop0, hop1, hop2⟩ := hops op (List.mem_cons_self _ _)
    have hstep : api_upload_chunk caller sid op.1 (some op.2) now st =
        .ok (((sortedDedup (op.1 :: σ.receivedChunks)).length, σ.totalChunks),
          { sessions := updateSession st.sessions
              { σ with receivedChunks := sortedDedup (op.1 :: σ.receivedChunks),
                       updatedAt := now },
            chunks := ((sid, op.1), op.2) :: st.chunks }) := by
      unfold api_upload_chunk
      rw [hf]
      dsimp only
      rw [if_neg (by simp [hpub])]
      rw [if_neg (by simp [huser])]
      rw [if_neg (by rcases caller with _ | u <;> simp [huser])]
      rw [if_neg (by omega)]
      rw [if_neg (by rintro ⟨hi, hl⟩; have := hop2 hi; omega)]
    have hrun : runChunks caller sid now (op :: rest) st =
        runChunks caller sid now rest
          { sessions := updateSession st.sessions
              { σ with receivedChunks := sortedDedup (op.1 :: σ.receivedChunks),
                       updatedAt := now },
            chunks := ((sid, op.1), op.2) :: st.chunks } := by
      show (api_upload_chunk caller sid op.1 (some op.2) now st).map Prod.snd >>=
          (fun s => List.foldlM _ s rest) = _
      rw [hstep]
      rfl
    obtain ⟨st', σ', hrun', hfind', hpub', huser', htc', hcs', hts', hfn',
        hinv', hmem', hsome', hnone'⟩ :=
      ih { sessions := updateSession st.sessions
             { σ with receivedChunks := sortedDedup (op.1 :: σ.receivedChunks),
                      updatedAt := now },
           chunks := ((sid, op.1), op.2) :: st.chunks }
        { σ with receivedChunks := sortedDedup (op.1 :: σ.receivedChunks),
                 updatedAt := now }
        (by apply findSession_update_self hf
            show σ.sid = sid
            exact findSession_some_sid hf)
        hpub huser (sortedDedup_pairwise _)
        (fun o ho => hops o (List.mem_cons_of_mem _ ho))
    refine ⟨st', σ', hrun.trans hrun', hfind', hpub', huser', htc', hcs',
      hts', hfn', hinv', ?_, ?_, ?_⟩
    · intro v
      rw [hmem' v]
      show _ ↔ v ∈ op.1 :: rest.map Prod.fst ∨ _
      rw [List.mem_cons]
      constructor
      · rintro (h | h)
        · exact Or.inl (Or.inr h)
        · rcases List.mem_cons.mp ((mem_sortedDedup v _).mp h) with rfl | h
          · exact Or.inl (Or.inl rfl)
          · exact Or.inr h
      · rintro ((rfl | h) | h)
        · exact Or.inr ((mem_sortedDedup _ _).mpr (List.mem_cons_self _ _))
        · exact Or.inl h
        · exact Or.inr ((mem_sortedDedup v _).mpr (List.mem_cons_of_mem _ h))
    · intro i b hlw
      rw [lastWrittenBytes_cons] at hlw
      cases hrest : lastWrittenBytes rest i with
      | some b' =>
        rw [hrest] at hlw
        dsimp only at hlw
        exact hsome' i b (hrest.trans hlw)
      | none =>
        rw [hrest] at hlw
        dsimp only at hlw
        split at hlw
        · next hopi =>
          obtain rfl := Option.some.inj hlw
          rw [hnone' i hrest]
          rw [storeGet_cons]
          rw [if_pos ⟨rfl, hopi.symm⟩]
        · cases hlw
    · intro i hlw
      rw [lastWrittenBytes_cons] at hlw
      cases hrest : lastWrittenBytes rest i with
      | some b' =>
        rw [hrest] at hlw
        dsimp only at hlw
        cases hlw
      | none =>
        rw [hrest] at hlw
        dsimp only at hlw
        split at hlw
        · cases hlw
        · next hopi =>
          rw [hnone' i hrest, storeGet_cons,
            if_neg (by rintro ⟨-, rfl⟩; exact hopi rfl)]

/-- C1: upload every chunk index `0..totalChunks-1` in any order (each via
`putChunk`, possibly with re-uploads); `complete` then assembles and
delivers to the slot a blob that is exactly the in-index-order
concatenation of the most recently uploaded bytes per index, whatever the
upload order was. -/
theorem upload_complete_assembles_in_order (caller : Option Nat) (sid : Nat)
    (now slotTtl : Int) (freshBlob : Nat) (st : ServerState) (sh : ShareState)
    (σ : UploadSession) (ops : List (Int × Bytes))
    (hf : findSession st.sessions sid = some σ)
    (hpub : σ.isPublic = caller.isNone) (huser : σ.userId = caller)
    (hempty : σ.receivedChunks = [])
    (hops : ∀ op ∈ ops, chunkOpOK σ.totalChunks σ.chunkSize op)
    (hcover : ∀ i : Nat, i < σ.totalChunks → (i : Int) ∈ ops.map Prod.fst)
    (hsize : (assembledOf ops σ.totalChunks).length = σ.totalSize) :
    ∃ st' stF shF,
      runChunks caller sid now ops st = .ok st' ∧
      api_upload_complete caller (some sid) slotTtl now freshBlob st' sh =
        .ok (stF, shF) ∧
      shF.slot.file = some (freshBlob, σ.filename) ∧
      (freshBlob, assembledOf ops σ.totalChunks) ∈ shF.blobs := by
  obtain ⟨st', σ', hrun, hfind', hpub', huser', htc', hcs', hts', hfn',
      hinv', hmem', hsome', -⟩ :=
    runChunks_spec caller sid now ops st σ hf hpub huser
      (hempty ▸ List.Pairwise.nil) hops
  have hmem2 : ∀ v : Int, v ∈ σ'.receivedChunks ↔ v ∈ ops.map Prod.fst := by
    intro v
    rw [hmem' v, hempty]
    simp
  have hbounds : ∀ v ∈ σ'.receivedChunks, 0 ≤ v ∧ v < (σ'.totalChunks : Int) := by
    intro v hv
    obtain ⟨p, hp, hpv⟩ := List.mem_map.mp ((hmem2 v).mp hv)
    obtain ⟨h0, h1, -⟩ := hops p hp
    rw [htc']
    exact ⟨hpv ▸ h0, hpv ▸ h1⟩
  have hdedup : sortedDedup σ'.receivedChunks = σ'.receivedChunks :=
    sortedDedup_of_pairwise hinv'
  have hlen : σ'.receivedChunks.length = σ'.totalChunks := by
    rw [length_eq_iff_all_mem hinv' hbounds]
    intro i hi
    rw [hmem2]
    exact hcover i (htc' ▸ hi)
  have hasm : assemble st'.chunks sid σ'.totalChunks =
      some (assembledOf ops σ'.totalChunks) := by
    unfold assemble assembledOf
    rw [mapM_eq_some_of_forall _
      (fun i : Nat => (lastWrittenBytes ops (i : Int)).getD [])]
    · rfl
    · intro i hi
      rw [List.mem_range] at hi
      obtain ⟨b, hb⟩ := lastWrittenBytes_isSome_of_mem (hcover i (htc' ▸ hi))
      rw [hb]
      exact hsome' _ _ hb
  have hσsid : σ'.sid = sid := findSession_some_sid hfind'
  refine ⟨st', ?_⟩
  unfold api_upload_complete
  dsimp only
  rw [hfind']
  dsimp only
  rw [if_neg (by simp [hpub'.trans hpub])]
  rw [if_neg (by simp [huser'.trans huser])]
  rw [if_neg (by rcases caller with _ | u <;> simp [huser'.trans huser])]
  rw [if_neg (fun h => h (by rw [hdedup]; exact hlen))]
  rw [hσsid, hasm]
  dsimp only
  rw [if_neg (fun h => h (by rw [htc', hts']; exact hsize))]
  refine ⟨_, _, hrun, rfl, ?_, ?_⟩
  · show some (freshBlob, σ'.filename) = some (freshBlob, σ.filename)
    rw [hfn']
  · show (freshBlob, assembledOf ops σ.totalChunks) ∈
      (freshBlob, assembledOf ops σ'.totalChunks) :: _
    rw [htc']
    exact List.mem_cons_self _ _

/-- C1 witness: the spec's 26-byte scenario, uploaded out of order
(2, then 0, then 1): `complete` succeeds and the delivered blob is the
bytes `0..25` in order. -/
theorem upload_complete_assembles_in_order_witness :
    (∃ st' stF shF,
      runChunks none 7 1001
        [((2 : Int), [20, 21, 22, 23, 24, 25]),
         ((0 : Int), [0, 1, 2, 3, 4, 5, 6, 7, 8, 9]),
         ((1 : Int), [10, 11, 12, 13, 14, 15, 16, 17, 18, 19])]
        { sessions := [freshSession none 7 "f.bin" "" 26 10 3 1000],
          chunks := [] } = .ok st' ∧
      api_upload_complete none (some 7) 86400 1001 42 st'
        { slot := { file := none, text := some "old", slotUpdatedAt := 999 },
          blobs := [] } = .ok (stF, shF) ∧
      shF.slot.file = some (42, "f.bin") ∧
      (42, assembledOf
        [((2 : Int), [20, 21, 22, 23, 24, 25]),
         ((0 : Int), [0, 1, 2, 3, 4, 5, 6, 7, 8, 9]),
         ((1 : Int), [10, 11, 12, 13, 14, 15, 16, 17, 18, 19])] 3) ∈ shF.blobs) ∧
    assembledOf
      [((2 : Int), [20, 21, 22, 23, 24, 25]),
       ((0 : Int), [0, 1, 2, 3, 4, 5, 6, 7, 8, 9]),
       ((1 : Int), [10, 11, 12, 13, 14, 15, 16, 17, 18, 19])] 3 =
      List.range 26 := by
  refine ⟨?_, by decide⟩
  exact upload_complete_assembles_in_order none 7 1001 86400 42
    { sessions := [freshSession none 7 "f.bin" "" 26 10 3 1000], chunks := [] }
    { slot := { file := none, text := some "old", slotUpdatedAt := 999 },
      blobs := [] }
    (freshSession none 7 "f.bin" "" 26 10 3 1000)
    [((2 : Int), [20, 21, 22, 23, 24, 25]),
     ((0 : Int), [0, 1, 2, 3, 4, 5, 6, 7, 8, 9]),
     ((1 : Int), [10, 11, 12, 13, 14, 15, 16, 17, 18, 19])]
    (by rfl) (by rfl) (by rfl) (by rfl) (by decide) (by decide) (by decide)

end DShare
